import Mathlib

/-!
Verification of the Clause-Ease contract-simplification pipeline.

Texts are modelled as `List Char` (Python strings are sequences of unicode
code points, indexed by position, and `len`/slicing coincide with list
length/`take`/`drop`).  Python numbers appearing in the readability formulas
are modelled as exact rationals.
-/

namespace ClauseEase

/-- Whitespace code points matched by Python's `\s` regex class (for `str`
patterns) and stripped by `str.strip()`. -/
def isPySpace (c : Char) : Bool :=
  c == ' ' || c == '\t' || c == '\n' || c == '\x0b' || c == '\x0c' || c == '\r' ||
  c == '\x1c' || c == '\x1d' || c == '\x1e' || c == '\x1f' || c == '\x85' || c == '\xa0' ||
  c == '\u1680' || ('\u2000' ≤ c && c ≤ '\u200a') || c == '\u2028' || c == '\u2029' ||
  c == '\u202f' || c == '\u205f' || c == '\u3000'

/-- Python `str.strip()` : drop leading and trailing whitespace. -/
def stripPy (l : List Char) : List Char :=
  ((l.dropWhile isPySpace).reverse.dropWhile isPySpace).reverse

/-- One pass of the regex substitution `re.sub(r'\s+', ' ', text)`: every
maximal run of whitespace becomes a single space.  The boolean records
whether the previous character belonged to a whitespace run. -/
def collapseAux : Bool → List Char → List Char
  | _, [] => []
  | prevSpace, c :: cs =>
    if isPySpace c then
      if prevSpace then collapseAux true cs else ' ' :: collapseAux true cs
    else
      c :: collapseAux false cs

/-- Entry point of the whitespace-collapsing substitution. -/
def collapseWS (l : List Char) : List Char := collapseAux false l

/-- Python `str.replace(pat, rep)` with non-empty `pat`: scan left to right,
replacing non-overlapping occurrences.  Fuel-based so that it is structurally
recursive (fuel = input length always suffices: each step consumes at least
one character). -/
def replaceStrF : Nat → List Char → List Char → List Char → List Char
  | 0, _, _, l => l
  | _ + 1, _, _, [] => []
  | n + 1, pat, rep, c :: cs =>
    if !pat.isEmpty && pat.isPrefixOf (c :: cs) then
      rep ++ replaceStrF n pat rep ((c :: cs).drop pat.length)
    else
      c :: replaceStrF n pat rep cs

/-- Python `str.replace(pat, rep)` (for non-empty `pat`; an empty `pat` is
treated as the identity, which never arises below). -/
def replaceStr (pat rep l : List Char) : List Char :=
  replaceStrF l.length pat rep l

/-- The first key of the `quote_map` dict literal in
`module2_text_preprocessing.py`.  In the shipped source both characters of
the first two entries are the plain ASCII `"`, so the dict collapses to the
entry `'"' -> '"'`. -/
def quoteMapKey1 : List Char := ['"']

/-- The second key of the `quote_map` dict literal: the lines
`''': "'",` / `''': "'",` parse as a triple-quoted Python string, so the
key is the literal `: "'",` followed by a newline and the eight spaces of
indentation. -/
def quoteMapKey2 : List Char :=
  [':', ' ', '"', '\'', '"', ',', '\n', ' ', ' ', ' ', ' ', ' ', ' ', ' ', ' ']

/-- Embedding of `clean_text` (module2_text_preprocessing.py, lines 28-42):
replace `\xa0` by a space, delete `\r`, `\f`, `\v`, collapse whitespace runs
to single spaces, apply the two `quote_map` replacements (as the dict
actually parses, see `quoteMapKey1`/`quoteMapKey2`), and strip. -/
def clean_text (l : List Char) : List Char :=
  let t1 := l.map (fun c => if c == '\xa0' then ' ' else c)
  let t2 := t1.filter (fun c => !(c == '\r' || c == '\x0c' || c == '\x0b'))
  let t3 := collapseWS t2
  let t4 := replaceStr quoteMapKey1 quoteMapKey1 t3
  let t5 := replaceStr quoteMapKey2 ['\''] t4
  stripPy t5

/-! Properties of the normalizer used for the idempotence claim. -/

/-- Every whitespace character occurring in the list is the plain blank. -/
def allBlank (l : List Char) : Prop := ∀ c ∈ l, isPySpace c = true → c = ' '

/-- No two adjacent characters are both whitespace. -/
def noAdjSpace (l : List Char) : Prop :=
  List.Chain' (fun a b => ¬(isPySpace a = true ∧ isPySpace b = true)) l

/-- The head (if any) is not whitespace. -/
def headNoSpace (l : List Char) : Prop := ∀ c ∈ l.head?, isPySpace c = false

lemma collapseAux_mem :
    ∀ (l : List Char) (b : Bool) (c : Char), c ∈ collapseAux b l →
      c = ' ' ∨ (c ∈ l ∧ isPySpace c = false) := by
  intro l
  induction l with
  | nil => intro b c hc; simp [collapseAux] at hc
  | cons d ds ih =>
    intro b c hc
    by_cases hd : isPySpace d = true
    · cases b with
      | true =>
        simp only [collapseAux, hd, if_pos] at hc
        rcases ih true c hc with h | ⟨h1, h2⟩
        · exact Or.inl h
        · exact Or.inr ⟨List.mem_cons_of_mem _ h1, h2⟩
      | false =>
        simp only [collapseAux, hd, if_pos] at hc
        rcases List.mem_cons.mp hc with h | h
        · exact Or.inl h
        · rcases ih true c h with h' | ⟨h1, h2⟩
          · exact Or.inl h'
          · exact Or.inr ⟨List.mem_cons_of_mem _ h1, h2⟩
    · simp only [collapseAux, hd, if_neg, Bool.false_eq_true, not_false_iff] at hc
      rcases List.mem_cons.mp hc with h | h
      · subst h; exact Or.inr ⟨List.mem_cons_self _ _, Bool.not_eq_true _ ▸ hd⟩
      · rcases ih false c h with h' | ⟨h1, h2⟩
        · exact Or.inl h'
        · exact Or.inr ⟨List.mem_cons_of_mem _ h1, h2⟩

lemma collapseAux_head_noAdj :
    ∀ (l : List Char) (b : Bool),
      (b = true → headNoSpace (collapseAux b l)) ∧ noAdjSpace (collapseAux b l) := by
  intro l
  induction l with
  | nil =>
    intro b
    constructor
    · intro _ c hc; simp [collapseAux] at hc
    · simp [collapseAux, noAdjSpace]
  | cons d ds ih =>
    intro b
    by_cases hd : isPySpace d = true
    · cases b with
      | true => simpa only [collapseAux, hd, if_pos] using ih true
      | false =>
        have hrw : collapseAux false (d :: ds) = ' ' :: collapseAux true ds := by
          simp [collapseAux, hd]
        rw [hrw]
        refine ⟨(fun h => nomatch h), ?_⟩
        refine List.chain'_cons'.mpr ⟨?_, (ih true).2⟩
        intro y hy
        have := (ih true).1 rfl y hy
        simp [this]
    · have hrw : collapseAux b (d :: ds) = d :: collapseAux false ds := by
        cases b <;> simp [collapseAux, hd]
      rw [hrw]
      refine ⟨?_, ?_⟩
      · intro _ c hc
        simp only [List.head?_cons, Option.mem_some_iff] at hc
        subst hc; exact Bool.not_eq_true _ ▸ hd
      · refine List.chain'_cons'.mpr ⟨?_, (ih false).2⟩
        intro y _
        intro hcon
        exact hd hcon.1

lemma collapseAux_eq_self :
    ∀ (l : List Char) (b : Bool), allBlank l → noAdjSpace l →
      (b = true → headNoSpace l) → collapseAux b l = l := by
  intro l
  induction l with
  | nil => intro b _ _ _; rfl
  | cons d ds ih =>
    intro b hall hadj hhead
    by_cases hd : isPySpace d = true
    · have hdblank : d = ' ' := hall d (List.mem_cons_self _ _) hd
      cases b with
      | true =>
        exfalso
        have := hhead rfl d (by simp)
        rw [this] at hd; cases hd
      | false =>
        have hrw : collapseAux false (d :: ds) = ' ' :: collapseAux true ds := by
          simp [collapseAux, hd]
        rw [hrw, hdblank]
        congr 1
        refine ih true (fun c hc h => hall c (List.mem_cons_of_mem _ hc) h)
          (List.chain'_cons'.mp hadj).2 ?_
        intro _ c hc
        have := (List.chain'_cons'.mp hadj).1 c hc
        by_contra hcs
        exact this ⟨hd, Bool.not_eq_false _ ▸ hcs⟩
    · have hrw : collapseAux b (d :: ds) = d :: collapseAux false ds := by
        cases b <;> simp [collapseAux, hd]
      rw [hrw]
      congr 1
      exact ih false (fun c hc h => hall c (List.mem_cons_of_mem _ hc) h)
        (List.chain'_cons'.mp hadj).2 (fun h => nomatch h)

lemma mem_of_isPrefixOf :
    ∀ (p l : List Char), p.isPrefixOf l = true → ∀ x ∈ p, x ∈ l := by
  intro p
  induction p with
  | nil => intro l _ x hx; cases hx
  | cons a as ih =>
    intro l hp x hx
    cases l with
    | nil => simp [List.isPrefixOf] at hp
    | cons b bs =>
      simp only [List.isPrefixOf, Bool.and_eq_true, beq_iff_eq] at hp
      rcases List.mem_cons.mp hx with h | h
      · subst h; rw [hp.1]; exact List.mem_cons_self _ _
      · exact List.mem_cons_of_mem _ (ih bs hp.2 x h)

lemma replaceStrF_single_id :
    ∀ (n : Nat) (c : Char) (l : List Char), replaceStrF n [c] [c] l = l := by
  intro n
  induction n with
  | zero => intro c l; rfl
  | succ n ih =>
    intro c l
    cases l with
    | nil => rfl
    | cons d ds =>
      by_cases h : ([c].isPrefixOf (d :: ds)) = true
      · have hcd : c = d := by
          simpa [List.isPrefixOf] using h
        simp only [replaceStrF, List.isEmpty, h, Bool.not_false, Bool.and_self,
          Bool.true_and, if_pos]
        subst hcd
        simp [ih]
      · simp [replaceStrF, h, ih]

lemma replaceStrF_of_not_mem :
    ∀ (n : Nat) (pat rep l : List Char) (x : Char), x ∈ pat → x ∉ l →
      replaceStrF n pat rep l = l := by
  intro n
  induction n with
  | zero => intro pat rep l x _ _; rfl
  | succ n ih =>
    intro pat rep l x hxp hxl
    cases l with
    | nil => rfl
    | cons d ds =>
      have hpre : (pat.isPrefixOf (d :: ds)) = false := by
        by_contra h
        exact hxl (mem_of_isPrefixOf pat (d :: ds) (Bool.not_eq_false _ ▸ h) x hxp)
      simp only [replaceStrF, hpre, Bool.and_false, Bool.false_eq_true, if_neg,
        not_false_iff]
      congr 1
      exact ih pat rep ds x hxp (fun h => hxl (List.mem_cons_of_mem _ h))

lemma replaceStr_single_id (c : Char) (l : List Char) : replaceStr [c] [c] l = l :=
  replaceStrF_single_id _ c l

lemma replaceStr_of_not_mem (pat rep l : List Char) (x : Char) (h1 : x ∈ pat)
    (h2 : x ∉ l) : replaceStr pat rep l = l :=
  replaceStrF_of_not_mem _ pat rep l x h1 h2

lemma map_eq_self_of {f : Char → Char} {l : List Char} (h : ∀ c ∈ l, f c = c) :
    l.map f = l := by
  induction l with
  | nil => rfl
  | cons a t ih =>
    simp only [List.map_cons]
    rw [h a (List.mem_cons_self _ _), ih (fun c hc => h c (List.mem_cons_of_mem _ hc))]

lemma headNoSpace_dropWhile (l : List Char) : headNoSpace (l.dropWhile isPySpace) := by
  intro c hc
  have h := List.head?_dropWhile_not isPySpace l
  simp only [Option.mem_def] at hc
  rw [hc] at h
  exact h

lemma headNoSpace_of_pre {l₁ l₂ : List Char} (h : l₁ <+: l₂)
    (h2 : headNoSpace l₂) : headNoSpace l₁ := by
  obtain ⟨t, rfl⟩ := h
  intro c hc
  cases l₁ with
  | nil => cases hc
  | cons a as =>
    simp only [List.head?_cons, Option.mem_some_iff] at hc
    subst hc
    exact h2 a (by simp)

lemma dropWhile_eq_self_of_head {l : List Char} (h : headNoSpace l) :
    l.dropWhile isPySpace = l := by
  cases l with
  | nil => rfl
  | cons a as => exact List.dropWhile_cons_of_neg (by simp [h a (by simp)])

lemma stripPy_pre (l : List Char) : stripPy l <+: l.dropWhile isPySpace := by
  have h : (stripPy l).reverse <:+ (l.dropWhile isPySpace).reverse := by
    unfold stripPy
    rw [List.reverse_reverse]
    exact List.dropWhile_suffix _
  exact List.reverse_suffix.mp (by simpa using h)

lemma headNoSpace_stripPy (l : List Char) : headNoSpace (stripPy l) :=
  headNoSpace_of_pre (stripPy_pre l) (headNoSpace_dropWhile l)

lemma stripPy_reverse_eq (l : List Char) :
    (stripPy l).reverse = (l.dropWhile isPySpace).reverse.dropWhile isPySpace := by
  unfold stripPy
  rw [List.reverse_reverse]

lemma stripPy_idem (l : List Char) : stripPy (stripPy l) = stripPy l := by
  have h1 : (stripPy l).dropWhile isPySpace = stripPy l :=
    dropWhile_eq_self_of_head (headNoSpace_stripPy l)
  have h2 : (stripPy l).reverse.dropWhile isPySpace = (stripPy l).reverse := by
    rw [stripPy_reverse_eq]
    exact dropWhile_eq_self_of_head (headNoSpace_dropWhile _)
  calc stripPy (stripPy l)
      = (((stripPy l).dropWhile isPySpace).reverse.dropWhile isPySpace).reverse := rfl
    _ = ((stripPy l).reverse.dropWhile isPySpace).reverse := by rw [h1]
    _ = (stripPy l).reverse.reverse := by rw [h2]
    _ = stripPy l := List.reverse_reverse _

lemma stripPy_subset (l : List Char) : stripPy l ⊆ l := by
  intro c hc
  unfold stripPy at hc
  rw [List.mem_reverse] at hc
  have hc2 := List.dropWhile_subset _ hc
  rw [List.mem_reverse] at hc2
  exact List.dropWhile_subset _ hc2

lemma noAdjSpace_reverse {l : List Char} (h : noAdjSpace l) : noAdjSpace l.reverse := by
  unfold noAdjSpace at *
  rw [List.chain'_reverse]
  exact h.imp (fun a b hab hc => hab ⟨hc.2, hc.1⟩)

lemma noAdjSpace_stripPy {l : List Char} (h : noAdjSpace l) : noAdjSpace (stripPy l) := by
  have h1 : noAdjSpace (l.dropWhile isPySpace) := h.suffix (List.dropWhile_suffix _)
  have h2 : noAdjSpace ((l.dropWhile isPySpace).reverse.dropWhile isPySpace) :=
    (noAdjSpace_reverse h1).suffix (List.dropWhile_suffix _)
  exact noAdjSpace_reverse h2

lemma clean_text_eq_strip_collapse (s : List Char) :
    clean_text s =
      stripPy (collapseWS ((s.map (fun c => if c == '\xa0' then ' ' else c)).filter
        (fun c => !(c == '\r' || c == '\x0c' || c == '\x0b')))) := by
  unfold clean_text
  set t3 := collapseWS ((s.map (fun c => if c == '\xa0' then ' ' else c)).filter
    (fun c => !(c == '\r' || c == '\x0c' || c == '\x0b'))) with ht3
  have h4 : replaceStr quoteMapKey1 quoteMapKey1 t3 = t3 := replaceStr_single_id '"' t3
  have hnl : ('\n' : Char) ∉ t3 := by
    intro hmem
    rcases collapseAux_mem _ false '\n' hmem with h | ⟨_, h2⟩
    · cases h
    · simp [isPySpace] at h2
  have h5 : replaceStr quoteMapKey2 ['\''] t3 = t3 :=
    replaceStr_of_not_mem _ _ _ '\n' (by simp [quoteMapKey2]) hnl
  simp only [h4, h5]

lemma mem_clean_text {s : List Char} {c : Char} (h : c ∈ clean_text s) :
    c = ' ' ∨ isPySpace c = false := by
  rw [clean_text_eq_strip_collapse] at h
  have h2 := stripPy_subset _ h
  rcases collapseAux_mem _ false c h2 with h' | ⟨_, h2'⟩
  · exact Or.inl h'
  · exact Or.inr h2'

lemma noAdjSpace_clean_text (s : List Char) : noAdjSpace (clean_text s) := by
  rw [clean_text_eq_strip_collapse]
  exact noAdjSpace_stripPy (collapseAux_head_noAdj _ false).2

lemma stripPy_clean_text (s : List Char) : stripPy (clean_text s) = clean_text s := by
  rw [clean_text_eq_strip_collapse]
  exact stripPy_idem _

/-- C9.  The text normalizer `clean_text` is idempotent: cleaning already
cleaned text returns it unchanged. -/
theorem clean_text_idempotent (s : List Char) :
    clean_text (clean_text s) = clean_text s := by
  set r := clean_text s with hr
  have hmap : r.map (fun c => if c == '\xa0' then ' ' else c) = r := by
    refine map_eq_self_of ?_
    intro c hc
    rcases mem_clean_text (hr ▸ hc) with h | h
    · subst h; rfl
    · have : (c == '\xa0') = false := by
        by_contra hx
        have : c = '\xa0' := by
          have := Bool.not_eq_false _ ▸ hx
          exact beq_iff_eq.mp this
        subst this
        simp [isPySpace] at h
      simp [this]
  have hfil : r.filter (fun c => !(c == '\r' || c == '\x0c' || c == '\x0b')) = r := by
    refine List.filter_eq_self.mpr ?_
    intro c hc
    rcases mem_clean_text (hr ▸ hc) with h | h
    · subst h; rfl
    · have h1 : (c == '\r') = false := by
        by_contra hx
        have : c = '\r' := beq_iff_eq.mp (Bool.not_eq_false _ ▸ hx)
        subst this; simp [isPySpace] at h
      have h2 : (c == '\x0c') = false := by
        by_contra hx
        have : c = '\x0c' := beq_iff_eq.mp (Bool.not_eq_false _ ▸ hx)
        subst this; simp [isPySpace] at h
      have h3 : (c == '\x0b') = false := by
        by_contra hx
        have : c = '\x0b' := beq_iff_eq.mp (Bool.not_eq_false _ ▸ hx)
        subst this; simp [isPySpace] at h
      simp [h1, h2, h3]
  have hcol : collapseWS r = r := by
    refine collapseAux_eq_self r false ?_ ?_ (fun h => nomatch h)
    · intro c hc hsp
      rcases mem_clean_text (hr ▸ hc) with h | h
      · exact h
      · rw [hsp] at h; cases h
    · exact hr ▸ noAdjSpace_clean_text s
  calc clean_text r
      = stripPy (collapseWS ((r.map (fun c => if c == '\xa0' then ' ' else c)).filter
          (fun c => !(c == '\r' || c == '\x0c' || c == '\x0b')))) :=
        clean_text_eq_strip_collapse r
    _ = stripPy r := by rw [hmap, hfil, hcol]
    _ = r := hr ▸ stripPy_clean_text s

/-- C2 (code bug).  The shipped `clean_text` does NOT normalize curly quotes:
the `quote_map` dict literal contains only ASCII quote characters (its
comment says "Normalize smart quotes", so the intent is clear), and on the
input `“Hi”` the curly quotes survive unchanged. -/
theorem clean_text_keeps_curly_quotes :
    clean_text "“Hi”".toList = "“Hi”".toList ∧ ('“' : Char) ∈ clean_text "“Hi”".toList := by
  constructor
  · decide
  · decide

/-! Clause segmentation (`segment_clauses`, module2_text_preprocessing.py
lines 45-111).  The fixed marker regexes are embedded as deterministic
matchers; `re.finditer` is embedded as a left-to-right non-overlapping scan. -/

/-- ASCII word character, the `\w` class as it applies to the ASCII marker
literals scanned here. -/
def isWordChar (c : Char) : Bool := c.isAlphanum || c == '_'

/-- Match a literal case-insensitively (`re.IGNORECASE` on ASCII letters),
returning the rest of the input. -/
def eatCI : List Char → List Char → Option (List Char)
  | [], l => some l
  | _ :: _, [] => none
  | p :: ps, c :: cs => if p.toLower == c.toLower then eatCI ps cs else none

/-- Consume `\s*` (always succeeds). -/
def eatWSStar (l : List Char) : List Char := l.dropWhile isPySpace

/-- Consume `\s+` (at least one whitespace character, greedily). -/
def eatWSPlus (l : List Char) : Option (List Char) :=
  match l with
  | c :: cs => if isPySpace c then some (cs.dropWhile isPySpace) else none
  | [] => none

/-- Marker `(Annexure-?\s*)`. -/
def mAnnexure (_ : Option Char) (l : List Char) : Option (List Char) :=
  (eatCI "annexure".toList l).map (fun r =>
    eatWSStar (match r with | '-' :: t => t | _ => r))

/-- Marker `(AGREEMENT FORMAT)`. -/
def mHeading (_ : Option Char) (l : List Char) : Option (List Char) :=
  eatCI "agreement format".toList l

/-- Marker `(\(ON NON-JUDICIAL)`. -/
def mSubheading (_ : Option Char) (l : List Char) : Option (List Char) :=
  eatCI "(on non-judicial".toList l

/-- Marker `(This\s+agreement\s+is\s+made)`. -/
def mPreamble (_ : Option Char) (l : List Char) : Option (List Char) :=
  (eatCI "this".toList l).bind eatWSPlus |>.bind (eatCI "agreement".toList)
    |>.bind eatWSPlus |>.bind (eatCI "is".toList)
    |>.bind eatWSPlus |>.bind (eatCI "made".toList)

/-- Marker `(\bAND\s*\n)`.  The greedy `\s*` backtracks until the final `\n`
of the whitespace run, so the match extends to the last newline of the run
following `AND`. -/
def mAndSep (prev : Option Char) (l : List Char) : Option (List Char) :=
  if (match prev with | none => true | some p => !isWordChar p) then
    (eatCI "and".toList l).bind (fun r =>
      let w := r.takeWhile isPySpace
      match w.reverse.findIdx? (fun c => c == '\n') with
      | some i => some (r.drop (w.length - i))
      | none => none)
  else none

/-- Marker `(Whereas\s+the\s+Employer)`. -/
def mWhereas (_ : Option Char) (l : List Char) : Option (List Char) :=
  (eatCI "whereas".toList l).bind eatWSPlus |>.bind (eatCI "the".toList)
    |>.bind eatWSPlus |>.bind (eatCI "employer".toList)

/-- Marker `(NOW THIS AGREEMENT WITNESSETH)`. -/
def mWitnesseth (_ : Option Char) (l : List Char) : Option (List Char) :=
  eatCI "now this agreement witnesseth".toList l

/-- Marker `(\n\s*\d+\.\s+[A-Z])`; with `re.IGNORECASE` the class `[A-Z]`
matches any ASCII letter. -/
def mNumbered (_ : Option Char) (l : List Char) : Option (List Char) :=
  match l with
  | '\n' :: r =>
    let r1 := r.dropWhile isPySpace
    let ds := r1.takeWhile Char.isDigit
    if ds.isEmpty then none
    else
      match r1.drop ds.length with
      | '.' :: r2 =>
        (eatWSPlus r2).bind (fun r3 =>
          match r3 with
          | c :: r4 => if c.isAlpha then some r4 else none
          | [] => none)
      | _ => none
  | _ => none

/-- Marker `(In witness whereof)`. -/
def mInWitness (_ : Option Char) (l : List Char) : Option (List Char) :=
  eatCI "in witness whereof".toList l

/-- Marker `(The Common Seal)`. -/
def mSeal (_ : Option Char) (l : List Char) : Option (List Char) :=
  eatCI "the common seal".toList l

/-- Marker `(Signed Sealed and Delivered)`. -/
def mSigned (_ : Option Char) (l : List Char) : Option (List Char) :=
  eatCI "signed sealed and delivered".toList l

/-- Marker `(For & on behalf of Employer)`. -/
def mEmployerSig (_ : Option Char) (l : List Char) : Option (List Char) :=
  eatCI "for & on behalf of employer".toList l

/-- Marker `(For & on behalf of Contractor)`. -/
def mContractorSig (_ : Option Char) (l : List Char) : Option (List Char) :=
  eatCI "for & on behalf of contractor".toList l

/-- Marker `(\bNote:)`. -/
def mNote (prev : Option Char) (l : List Char) : Option (List Char) :=
  if (match prev with | none => true | some p => !isWordChar p) then
    eatCI "note:".toList l
  else none

/-- Fuel-based `re.finditer` scan: at each position try the matcher; on a
match record the start and resume after it, otherwise advance one character.
`prev` is the character before the current position (for `\b`). -/
def reScanAux (m : Option Char → List Char → Option (List Char)) :
    Nat → Nat → Option Char → List Char → List Nat
  | 0, _, _, _ => []
  | _ + 1, _, _, [] => []
  | f + 1, pos, prev, c :: cs =>
    match m prev (c :: cs) with
    | some rest =>
      let n := (c :: cs).length - rest.length
      if n = 0 then pos :: reScanAux m f (pos + 1) (some c) cs
      else pos :: reScanAux m f (pos + n) (((c :: cs).take n).getLast?) ((c :: cs).drop n)
    | none => reScanAux m f (pos + 1) (some c) cs

/-- Start positions of all non-overlapping matches of a marker. -/
def reScan (m : Option Char → List Char → Option (List Char)) (l : List Char) :
    List Nat :=
  reScanAux m (l.length + 1) 0 none l

/-- The ordered marker table of `segment_clauses` (matcher, label).  The
matched group text is also collected by the source but never used. -/
def markers : List ((Option Char → List Char → Option (List Char)) × List Char) :=
  [(mAnnexure, "ANNEXURE".toList),
   (mHeading, "HEADING".toList),
   (mSubheading, "SUBHEADING".toList),
   (mPreamble, "PREAMBLE".toList),
   (mAndSep, "AND_SEPARATOR".toList),
   (mWhereas, "WHEREAS".toList),
   (mWitnesseth, "WITNESSETH".toList),
   (mNumbered, "NUMBERED_CLAUSE".toList),
   (mInWitness, "IN_WITNESS".toList),
   (mSeal, "SEAL".toList),
   (mSigned, "SIGNED".toList),
   (mEmployerSig, "EMPLOYER_SIG".toList),
   (mContractorSig, "CONTRACTOR_SIG".toList),
   (mNote, "NOTE".toList)]

/-- Stable insertion into a list sorted by position (ties keep earlier
insertions first, like Python's stable sort). -/
def insertByPos (x : Nat × List Char) : List (Nat × List Char) → List (Nat × List Char)
  | [] => [x]
  | y :: ys => if y.1 ≤ x.1 then y :: insertByPos x ys else x :: y :: ys

/-- Stable sort by start position (`splits.sort(key=lambda x: x[0])`). -/
def sortByPos (l : List (Nat × List Char)) : List (Nat × List Char) :=
  l.foldl (fun acc x => insertByPos x acc) []

/-- Substitution `re.sub(r'\r\n?', '\n', text)`. -/
def normCR : List Char → List Char
  | [] => []
  | '\r' :: '\n' :: t => '\n' :: normCR t
  | '\r' :: t => '\n' :: normCR t
  | c :: t => c :: normCR t

/-- Substitution `re.sub(r'\n+', '\n', text)`. -/
def collapseNLAux : Bool → List Char → List Char
  | _, [] => []
  | prev, c :: cs =>
    if c == '\n' then
      if prev then collapseNLAux true cs else '\n' :: collapseNLAux true cs
    else c :: collapseNLAux false cs

/-- Line-break normalization at the top of `segment_clauses`. -/
def normBreaks (l : List Char) : List Char := collapseNLAux false (normCR l)

/-- All `(start position, label)` marker matches, sorted by start position. -/
def markerSplits (t : List Char) : List (Nat × List Char) :=
  sortByPos ((markers.map (fun pr => (reScan pr.1 t).map (fun p => (p, pr.2)))).foldr
    (· ++ ·) [])

/-- Clause span texts: from each marker start to the next marker start (or
the end of text), stripped. -/
def spansAux (t : List Char) : List Nat → List (List Char)
  | [] => []
  | [p] => [stripPy (t.drop p)]
  | p :: q :: rest => stripPy ((t.drop p).take (q - p)) :: spansAux t (q :: rest)

/-- Marker-delimited candidate clauses that pass the 15-character filter
(`if clause_text and len(clause_text) > 15`). -/
def spansFiltered (t : List Char) : List (List Char) :=
  (spansAux t ((markerSplits t).map Prod.fst)).filter
    (fun c => !c.isEmpty && 15 < c.length)

/-- Raw clause list of the marker path: optional pre-marker leading text
(added with no length check) followed by the filtered spans. -/
def markerCand (t : List Char) : List (List Char) :=
  match (markerSplits t).map Prod.fst with
  | [] => []
  | p :: _ => (if 0 < p then [stripPy (t.take p)] else []) ++ spansFiltered t

/-- Marker-path clause list after the cleanup comprehension
`[c.strip() for c in clauses if c.strip() and len(c.strip()) > 10]`. -/
def markerClauses (t : List Char) : List (List Char) :=
  ((markerCand t).filter (fun c => !(stripPy c).isEmpty && 10 < (stripPy c).length)).map
    stripPy

/-- Regex delimiter `\n\s*\n+` used by the paragraph fallback: a newline
whose whitespace run contains a second newline; greedy backtracking makes
the match end just after the last newline of the run. -/
def matchParaDelim (l : List Char) : Option Nat :=
  match l with
  | '\n' :: _ =>
    let w := l.takeWhile isPySpace
    match w.reverse.findIdx? (fun c => c == '\n') with
    | some i => let j := w.length - 1 - i; if 1 ≤ j then some (j + 1) else none
    | none => none
  | _ => none

/-- Fuel-based `re.split(r'\n\s*\n+', text)`. -/
def splitReAux : Nat → List Char → List Char → List (List Char)
  | 0, cur, l => [cur ++ l]
  | _ + 1, cur, [] => [cur]
  | f + 1, cur, c :: cs =>
    match matchParaDelim (c :: cs) with
    | some n => cur :: splitReAux f [] ((c :: cs).drop n)
    | none => splitReAux f (cur ++ [c]) cs

/-- Split into blank-line-delimited paragraph pieces. -/
def splitParas (l : List Char) : List (List Char) := splitReAux (l.length + 1) [] l

/-- Paragraph-path clause list: stripped non-empty paragraphs longer than 20
characters. -/
def paraClauses (t : List Char) : List (List Char) :=
  (((splitParas t).filter (fun p => !(stripPy p).isEmpty)).map stripPy).filter
    (fun p => 20 < p.length)

/-- Embedding of `segment_clauses` (module2_text_preprocessing.py,
lines 45-111). -/
def segment_clauses (s : List Char) : List (List Char) :=
  if s.isEmpty || (stripPy s).isEmpty then [s]
  else
    let t := normBreaks s
    if (markerSplits t).isEmpty then
      if (paraClauses t).isEmpty then [t] else paraClauses t
    else
      if (markerClauses t).isEmpty then [t] else markerClauses t

/-- Shared case analysis of `segment_clauses` on non-empty input. -/
lemma segment_clauses_cases (s : List Char) (hs : s ≠ []) :
    segment_clauses s ≠ [] ∧
    (stripPy s = [] → segment_clauses s = [s]) ∧
    (stripPy s ≠ [] → markerSplits (normBreaks s) ≠ [] →
      segment_clauses s =
        (if (markerClauses (normBreaks s)).isEmpty then [normBreaks s]
         else markerClauses (normBreaks s))) ∧
    (stripPy s ≠ [] → markerSplits (normBreaks s) = [] →
      segment_clauses s =
        (if (paraClauses (normBreaks s)).isEmpty then [normBreaks s]
         else paraClauses (normBreaks s))) := by
  have hsE : s.isEmpty = false := by
    cases s with
    | nil => exact absurd rfl hs
    | cons a t => rfl
  by_cases hstrip : stripPy s = []
  · have h1 : segment_clauses s = [s] := by
      unfold segment_clauses
      rw [if_pos]
      rw [hsE, hstrip]
      rfl
    exact ⟨by simp [h1], fun _ => h1, fun h => absurd hstrip h, fun h => absurd hstrip h⟩
  · have hstE : (stripPy s).isEmpty = false := by
      cases h : stripPy s with
      | nil => exact absurd h hstrip
      | cons a t => rfl
    have hcond : (s.isEmpty || (stripPy s).isEmpty) = false := by rw [hsE, hstE]; rfl
    by_cases hm : markerSplits (normBreaks s) = []
    · have hmE : (markerSplits (normBreaks s)).isEmpty = true := by rw [hm]; rfl
      have h1 : segment_clauses s =
          (if (paraClauses (normBreaks s)).isEmpty then [normBreaks s]
           else paraClauses (normBreaks s)) := by
        unfold segment_clauses
        rw [if_neg (by rw [hcond]; exact Bool.false_ne_true), if_pos hmE]
      refine ⟨?_, fun h => absurd h hstrip, fun _ h => absurd hm h, fun _ _ => h1⟩
      rw [h1]
      by_cases hp : (paraClauses (normBreaks s)).isEmpty
      · simp [hp]
      · rw [if_neg hp]
        intro hnil
        rw [hnil] at hp
        exact hp rfl
    · have hmE : (markerSplits (normBreaks s)).isEmpty = false := by
        cases h : markerSplits (normBreaks s) with
        | nil => exact absurd h hm
        | cons a t => rfl
      have h1 : segment_clauses s =
          (if (markerClauses (normBreaks s)).isEmpty then [normBreaks s]
           else markerClauses (normBreaks s)) := by
        unfold segment_clauses
        rw [if_neg (by rw [hcond]; exact Bool.false_ne_true),
          if_neg (by rw [hmE]; exact Bool.false_ne_true)]
      refine ⟨?_, fun h => absurd h hstrip, fun _ _ => h1, fun _ h => absurd h hm⟩
      rw [h1]
      by_cases hp : (markerClauses (normBreaks s)).isEmpty
      · simp [hp]
      · rw [if_neg hp]
        intro hnil
        rw [hnil] at hp
        exact hp rfl

/-- C1.  For every non-empty input, `segment_clauses` returns a non-empty
list; when markers were found the result is the marker-delimited clause
list (or the whole normalized text when every candidate was filtered out);
with no markers it is the blank-line paragraph list of paragraphs longer
than 20 characters (or the whole normalized text when that is empty);
whitespace-only input is returned unchanged as a single clause. -/
theorem segment_clauses_spec (s : List Char) (hs : s ≠ []) :
    segment_clauses s ≠ [] ∧
    (stripPy s = [] → segment_clauses s = [s]) ∧
    (stripPy s ≠ [] → markerSplits (normBreaks s) ≠ [] →
      segment_clauses s =
        (if (markerClauses (normBreaks s)).isEmpty then [normBreaks s]
         else markerClauses (normBreaks s))) ∧
    (stripPy s ≠ [] → markerSplits (normBreaks s) = [] →
      segment_clauses s =
        (if (paraClauses (normBreaks s)).isEmpty then [normBreaks s]
         else paraClauses (normBreaks s))) :=
  segment_clauses_cases s hs

/-- Closed instance of C1 on a concrete document, discharging its
hypotheses. -/
theorem segment_clauses_spec_witness :
    segment_clauses "Hello world.Note: this is a sufficiently long clause.".toList ≠ [] :=
  (segment_clauses_spec "Hello world.Note: this is a sufficiently long clause.".toList
    (by decide)).1

/-- C3 (counterexample).  With markers found, the returned list can contain
a clause shorter than 15 characters: the pre-marker leading text is only
subjected to the 10-character cleanup filter, never to the 15-character
span filter. -/
theorem premarker_clause_below_15 :
    markerSplits (normBreaks
      "Hello world.Note: this is a sufficiently long clause.".toList) ≠ [] ∧
    "Hello world.".toList ∈
      segment_clauses "Hello world.Note: this is a sufficiently long clause.".toList ∧
    "Hello world.".toList.length < 15 := by
  refine ⟨by decide, by decide, by decide⟩

/-- C3 (amended).  In the marker path (markers found and the cleanup kept at
least one clause) the result is the cleaned marker clause list, every
returned clause is longer than 10 characters, and every marker-delimited
span candidate that survived construction is longer than 15 characters; the
15-character minimum is not enforced on the pre-marker leading clause, and
when everything is filtered out the whole normalized text is returned
whatever its length. -/
theorem marker_path_thresholds (s : List Char) (h0 : s ≠ [])
    (h1 : stripPy s ≠ []) (h2 : markerSplits (normBreaks s) ≠ [])
    (h3 : markerClauses (normBreaks s) ≠ []) :
    segment_clauses s = markerClauses (normBreaks s) ∧
    (∀ c ∈ segment_clauses s, 10 < c.length) ∧
    (∀ c ∈ spansFiltered (normBreaks s), 15 < c.length) := by
  have hmE : (markerClauses (normBreaks s)).isEmpty = false := by
    cases h : markerClauses (normBreaks s) with
    | nil => exact absurd h h3
    | cons a t => rfl
  have heq : segment_clauses s = markerClauses (normBreaks s) := by
    have := ((segment_clauses_cases s h0).2.2.1 h1 h2)
    rw [this, if_neg (by rw [hmE]; exact Bool.false_ne_true)]
  refine ⟨heq, ?_, ?_⟩
  · intro c hc
    rw [heq] at hc
    unfold markerClauses at hc
    rw [List.mem_map] at hc
    obtain ⟨c', hc', rfl⟩ := hc
    rw [List.mem_filter] at hc'
    have hlen := hc'.2
    rw [Bool.and_eq_true] at hlen
    exact of_decide_eq_true hlen.2
  · intro c hc
    unfold spansFiltered at hc
    rw [List.mem_filter] at hc
    have hlen := hc.2
    rw [Bool.and_eq_true] at hlen
    exact of_decide_eq_true hlen.2

/-- Closed instance of the amended C3 on the counterexample document. -/
theorem marker_path_thresholds_witness :
    segment_clauses "Hello world.Note: this is a sufficiently long clause.".toList =
      markerClauses (normBreaks
        "Hello world.Note: this is a sufficiently long clause.".toList) ∧
    10 < "Hello world.".toList.length :=
  ⟨(marker_path_thresholds
      "Hello world.Note: this is a sufficiently long clause.".toList
      (by decide) (by decide) (by decide) (by decide)).1,
   (marker_path_thresholds
      "Hello world.Note: this is a sufficiently long clause.".toList
      (by decide) (by decide) (by decide) (by decide)).2.1
     "Hello world.".toList (by decide)⟩

/-! Legal term extraction (`extract_legal_terms`, module4_legal_terms.py). -/

/-- One extracted legal term record (the dict appended to `found`). -/
structure LegalTerm where
  term : List Char
  category : List Char
  definition : List Char
  simplified_explanation : List Char
deriving DecidableEq

/-- Python ASCII `str.lower()` (all strings handled here are ASCII). -/
def pyLower (l : List Char) : List Char := l.map Char.toLower

/-- Helper for `str.title()`: the flag records whether the previous character
was a letter. -/
def pyTitleAux : List Char → Bool → List Char
  | [], _ => []
  | c :: cs, prevAlpha =>
    if c.isAlpha then
      (if prevAlpha then c.toLower else c.toUpper) :: pyTitleAux cs true
    else c :: pyTitleAux cs false

/-- Python `str.title()`: uppercase each letter that follows a non-letter,
lowercase the other letters. -/
def pyTitle (l : List Char) : List Char := pyTitleAux l false

/-- Helper for Python `str.split()` (no argument): split on whitespace runs,
discarding empty pieces. -/
def pySplitAux : List Char → List Char → List (List Char)
  | [], acc => if acc.isEmpty then [] else [acc]
  | c :: cs, acc =>
    if isPySpace c then
      (if acc.isEmpty then pySplitAux cs [] else acc :: pySplitAux cs [])
    else pySplitAux cs (acc ++ [c])

/-- Python `str.split()` with no argument. -/
def pySplit (l : List Char) : List (List Char) := pySplitAux l []

/-- Ordered `_LEXICON` table (Python dicts preserve insertion order). -/
def LEXICON : List (List Char × List Char) :=
  [("indemnity".toList, "Indemnity Clause".toList),
   ("indemnify".toList, "Indemnity Clause".toList),
   ("security deposit".toList, "Payment Terms".toList),
   ("termination".toList, "Termination Clause".toList),
   ("arbitration".toList, "Dispute Resolution".toList),
   ("dispute resolution".toList, "Dispute Resolution".toList),
   ("force majeure".toList, "Force Majeure".toList),
   ("governing law".toList, "Governing Law".toList),
   ("warranty".toList, "Warranty".toList),
   ("confidential".toList, "Confidentiality".toList),
   ("intellectual property".toList, "IP Rights".toList),
   ("non-compete".toList, "Non-Compete".toList),
   ("severability".toList, "Severability".toList),
   ("amendment".toList, "Amendment Rights".toList),
   ("assignment".toList, "Assignment Rights".toList),
   ("liability".toList, "Liability".toList),
   ("damages".toList, "Damages".toList)]

/-- The `_DEFINITIONS` dictionary. -/
def DEFINITIONS : List (List Char × List Char) :=
  [("indemnity".toList, "A promise to protect someone from financial loss or legal liability".toList),
   ("indemnify".toList, "To compensate or reimburse someone for loss or damage".toList),
   ("security deposit".toList, "Money held by one party as protection in case of damage or default".toList),
   ("termination".toList, "The act of ending or canceling a contract or agreement".toList),
   ("arbitration".toList, "Resolving a dispute outside of court with a neutral third party making the decision".toList),
   ("dispute resolution".toList, "Methods used to settle disagreements or conflicts".toList),
   ("force majeure".toList, "Unforeseeable circumstances that prevent someone from fulfilling a contract (like natural disasters)".toList),
   ("governing law".toList, "The legal system and rules that apply to a contract".toList),
   ("the governing law".toList, "The legal system and rules that apply to this contract".toList),
   ("warranty".toList, "A guarantee or promise about the quality or condition of something".toList),
   ("confidential".toList, "Information that must be kept private and not shared with others".toList),
   ("intellectual property".toList, "Creations of the mind like inventions, designs, brand names, and artistic works".toList),
   ("non-compete".toList, "An agreement not to compete with a business in the same industry or area".toList),
   ("severability".toList, "If one part of a contract is invalid, the rest of the contract remains valid".toList),
   ("amendment".toList, "A formal change or addition to a contract or document".toList),
   ("assignment".toList, "Transferring rights or responsibilities from one party to another".toList),
   ("liability".toList, "Legal responsibility for something, especially for costs or damages".toList),
   ("damages".toList, "Money paid as compensation for loss or injury".toList),
   ("consideration".toList, "Something of value exchanged between parties in a contract".toList),
   ("breach".toList, "Breaking or violating the terms of a contract".toList),
   ("covenant".toList, "A formal promise or agreement in a contract".toList),
   ("party".toList, "A person or organization involved in a contract or legal agreement".toList),
   ("effective date".toList, "The date when a contract or agreement officially begins".toList),
   ("notice".toList, "Formal communication or warning given to another party".toList),
   ("terms and conditions".toList, "The detailed rules and requirements of an agreement".toList),
   ("agreement".toList, "A mutual understanding or arrangement between two or more parties".toList),
   ("obligations".toList, "Duties or responsibilities that must be fulfilled under a contract".toList),
   ("rights".toList, "Legal entitlements or permissions granted by a contract".toList),
   ("default".toList, "Failure to fulfill an obligation or payment as required".toList),
   ("cure period".toList, "Time given to fix a problem or breach before penalties apply".toList),
   ("remedies".toList, "Solutions or compensations available when a contract is broken".toList),
   ("waiver".toList, "Voluntarily giving up a right or claim".toList),
   ("execution".toList, "The act of signing and making a contract legally binding".toList),
   ("representations".toList, "Statements of fact made by one party to another".toList),
   ("warranties".toList, "Promises or guarantees about facts or conditions".toList),
   ("audit".toList, "An official examination or review of records or accounts".toList),
   ("compliance".toList, "Following or obeying rules, laws, or requirements".toList),
   ("confidentiality".toList, "The state of keeping information secret or private".toList),
   ("disclosure".toList, "Revealing or making information known".toList),
   ("exclusivity".toList, "The right to be the only one to do something in an agreement".toList),
   ("jurisdiction".toList, "The authority of a court or legal system to hear a case".toList),
   ("limitation of liability".toList, "A cap or restriction on the amount of damages that can be claimed".toList),
   ("liquidated damages".toList, "A predetermined amount of money to be paid if a contract is broken".toList),
   ("material breach".toList, "A serious violation of a contract that affects its core purpose".toList),
   ("mutual consent".toList, "Agreement by all parties involved".toList),
   ("non-disclosure".toList, "An agreement to keep certain information confidential".toList),
   ("performance".toList, "Completing the obligations required by a contract".toList),
   ("renewal".toList, "Extending a contract for an additional period".toList),
   ("representations and warranties".toList, "Statements and promises made about facts and conditions".toList),
   ("services".toList, "Work or assistance provided under an agreement".toList),
   ("service".toList, "Work or assistance provided under an agreement".toList),
   ("the service provider".toList, "The person or company providing work or assistance under the agreement".toList),
   ("service provider".toList, "The person or company providing work or assistance".toList),
   ("parties".toList, "People or organizations involved in a contract or legal agreement".toList),
   ("the effective date".toList, "The specific date when a contract or agreement officially begins".toList),
   ("sole discretion".toList, "The complete freedom to make a decision without needing approval".toList),
   ("sublicense".toList, "Permission granted by a licensee to allow someone else to use licensed rights".toList),
   ("subsidiary".toList, "A company controlled by another company".toList),
   ("term".toList, "The length or duration of a contract".toList),
   ("third party".toList, "A person or entity not directly involved in an agreement".toList),
   ("title".toList, "Legal ownership of property or rights".toList),
   ("venue".toList, "The location where a legal case will be heard".toList),
   ("void".toList, "Having no legal effect or validity".toList),
   ("voidable".toList, "Valid but can be legally canceled under certain conditions".toList),
   ("the state of uttarakhand".toList, "A state in northern India, mentioned as the governing jurisdiction".toList),
   ("state".toList, "A political territory with its own government and laws".toList)]

/-- Python `dict.get(key, default)` on an association list. -/
def dictGet (d : List (List Char × List Char)) (k dflt : List Char) : List Char :=
  match d.find? (fun p => p.1 == k) with
  | some p => p.2
  | none => dflt

/-- The fallback definition for unknown terms. -/
def defaultDefn : List Char := "Legal terminology used in contracts.".toList

/-- Build a term record; `simplified_explanation` equals `definition`. -/
def mkTermRec (t cat defn : List Char) : LegalTerm := ⟨t, cat, defn, defn⟩

/-- ASCII quote character class `["\']` of the quoted-term regex (straight
quotes only in the shipped pattern). -/
def isQuoteCh (c : Char) : Bool := c == '"' || c == '\''

/-- Character class `[A-Za-z\s]`. -/
def isQClassCh (c : Char) : Bool :=
  (('A' ≤ c && c ≤ 'Z') || ('a' ≤ c && c ≤ 'z')) || isPySpace c

/-- Character class `[A-Z]` (no IGNORECASE in module4's patterns). -/
def isUpperA (c : Char) : Bool := 'A' ≤ c && c ≤ 'Z'

/-- Match of `["\']([A-Z][A-Za-z\s]{2,30})["\']` at the current position.
Because the class cannot contain a quote, the greedy quantifier is
deterministic: it must consume the whole maximal class run, which must have
length 2..30 and be followed by a quote.  Returns (match length, group). -/
def matchQuoted (l : List Char) : Option (Nat × List Char) :=
  match l with
  | q :: c :: rest =>
    if isQuoteCh q && isUpperA c then
      let run := rest.takeWhile isQClassCh
      if 2 ≤ run.length && run.length ≤ 30 then
        match rest.drop run.length with
        | q2 :: _ => if isQuoteCh q2 then some (run.length + 3, c :: run) else none
        | [] => none
      else none
    else none
  | _ => none

/-- The alternation `(?:\(hereinafter|shall mean|means|refers to)`, tried
left to right. -/
def defnLits : List (List Char) :=
  ["(hereinafter".toList, "shall mean".toList, "means".toList, "refers to".toList]

/-- Match of `([A-Z][A-Za-z\s]{2,30})\s*(?:\(hereinafter|shall mean|means|refers to)`
at the current position, with Python's backtracking order: the group's
quantifier greedily from 30 down to 2, within it `\s*` greedily, then the
alternation in written order.  Returns (match length, group). -/
def matchDefnAt (l : List Char) : Option (Nat × List Char) :=
  match l with
  | c :: rest =>
    if isUpperA c then
      let run := rest.takeWhile isQClassCh
      let kmax := min 30 run.length
      ((List.range (kmax + 1)).reverse.filter (fun k => 2 ≤ k)).findSome? (fun k =>
        let after := rest.drop k
        let wmax := (after.takeWhile isPySpace).length
        ((List.range (wmax + 1)).reverse).findSome? (fun j =>
          let rest2 := after.drop j
          (defnLits.findSome? (fun lit =>
            if lit.isPrefixOf rest2 then some (1 + k + j + lit.length) else none)).map
            (fun n => (n, c :: rest.take k))))
    else none
  | [] => none

/-- Fuel-based `re.finditer` collecting the captured groups of all
non-overlapping matches (patterns here have no `\b`, so no context is
needed). -/
def scanGroupsAux (m : List Char → Option (Nat × List Char)) :
    Nat → List Char → List (List Char)
  | 0, _ => []
  | _ + 1, [] => []
  | f + 1, c :: cs =>
    match m (c :: cs) with
    | some (n, g) =>
      if n = 0 then g :: scanGroupsAux m f cs
      else g :: scanGroupsAux m f ((c :: cs).drop n)
    | none => scanGroupsAux m f cs

/-- All captured groups of a pattern over the text. -/
def scanGroups (m : List Char → Option (Nat × List Char)) (l : List Char) :
    List (List Char) :=
  scanGroupsAux m (l.length + 1) l

/-- Stage 1 candidates: quoted-term matches, as (case-insensitive key,
record) pairs in match order. -/
def quotedCands (text : List Char) : List (List Char × LegalTerm) :=
  (scanGroups matchQuoted text).map (fun g =>
    let term := stripPy g
    let key := pyLower term
    (key, mkTermRec term "Defined Term".toList (dictGet DEFINITIONS key defaultDefn)))

/-- Stage 2 candidates: definitional-cue matches. -/
def defnCands (text : List Char) : List (List Char × LegalTerm) :=
  (scanGroups matchDefnAt text).map (fun g =>
    let term := stripPy g
    let key := pyLower term
    (key, mkTermRec term "Defined Term".toList (dictGet DEFINITIONS key defaultDefn)))

/-- Python substring containment `pat in l`. -/
def containsSub : List Char → List Char → Bool
  | pat, [] => pat.isEmpty
  | pat, c :: cs => pat.isPrefixOf (c :: cs) || containsSub pat cs

/-- Stage 3 candidates: lexicon keywords occurring as substrings of the
lower-cased text, in table order. -/
def lexiconCands (text : List Char) : List (List Char × LegalTerm) :=
  (LEXICON.filter (fun p => containsSub p.1 (pyLower text))).map (fun p =>
    (p.1, mkTermRec (pyTitle p.1) p.2 (dictGet DEFINITIONS p.1 defaultDefn)))

/-- Stage 4 candidates: entity-derived terms from the optional spaCy
capability, applied to the first 5000 characters; entities with labels
other than LAW/ORG/EVENT, containing a quote, or with a repeated word are
skipped. -/
def entityCands (cap : Option (List Char → List (List Char × List Char)))
    (text : List Char) : List (List Char × LegalTerm) :=
  match cap with
  | none => []
  | some f =>
    (f (text.take 5000)).filterMap (fun e =>
      if e.2 == "LAW".toList || e.2 == "ORG".toList || e.2 == "EVENT".toList then
        let et := stripPy e.1
        if et.contains '"' || et.contains '\'' then none
        else
          let ws := pySplit (pyLower et)
          if ws.length ≠ ws.dedup.length then none
          else
            let key := pyLower et
            some (key, mkTermRec et (e.2 ++ " Entity".toList)
              (dictGet DEFINITIONS key defaultDefn))
      else none)

/-- The seen-set guarded accumulation shared by all four stages: each
candidate is appended only when its key is not yet in `seen`. -/
def addCands : List (List Char × LegalTerm) → List (List Char × LegalTerm) →
    List (List Char) → List (List Char × LegalTerm) × List (List Char)
  | [], found, seen => (found, seen)
  | (k, r) :: rest, found, seen =>
    if k ∈ seen then addCands rest found seen
    else addCands rest (found ++ [(k, r)]) (seen ++ [k])

/-- Embedding of `extract_legal_terms` (module4_legal_terms.py lines
107-189), parameterized by the optional entity-extraction capability. -/
def extract_legal_terms (cap : Option (List Char → List (List Char × List Char)))
    (text : List Char) : List LegalTerm :=
  if text.isEmpty || (stripPy text).isEmpty then []
  else
    let s1 := addCands (quotedCands text) [] []
    let s2 := addCands (defnCands text) s1.1 s1.2
    let s3 := addCands (lexiconCands text) s2.1 s2.2
    let s4 := addCands (entityCands cap text) s3.1 s3.2
    s4.1.map Prod.snd

/-- Keep the first record for each case-insensitive key, in order. -/
def dedupFirst (cands : List (List Char × LegalTerm)) : List LegalTerm :=
  (addCands cands [] []).1.map Prod.snd

lemma addCands_append :
    ∀ (a b found : List (List Char × LegalTerm)) (seen : List (List Char)),
      addCands (a ++ b) found seen =
        addCands b (addCands a found seen).1 (addCands a found seen).2 := by
  intro a
  induction a with
  | nil => intro b found seen; rfl
  | cons kr rest ih =>
    intro b found seen
    obtain ⟨k, r⟩ := kr
    by_cases hk : k ∈ seen
    · simp only [List.cons_append, addCands, if_pos hk]
      exact ih b found seen
    · simp only [List.cons_append, addCands, if_neg hk]
      exact ih b (found ++ [(k, r)]) (seen ++ [k])

lemma addCands_mem :
    ∀ (cands found : List (List Char × LegalTerm)) (seen : List (List Char)) p,
      p ∈ (addCands cands found seen).1 → p ∈ found ∨ p ∈ cands := by
  intro cands
  induction cands with
  | nil => intro found seen p hp; exact Or.inl hp
  | cons kr rest ih =>
    intro found seen p hp
    obtain ⟨k, r⟩ := kr
    by_cases hk : k ∈ seen
    · simp only [addCands, if_pos hk] at hp
      rcases ih found seen p hp with h | h
      · exact Or.inl h
      · exact Or.inr (List.mem_cons_of_mem _ h)
    · simp only [addCands, if_neg hk] at hp
      rcases ih (found ++ [(k, r)]) (seen ++ [k]) p hp with h | h
      · rcases List.mem_append.mp h with h' | h'
        · exact Or.inl h'
        · rw [List.mem_singleton] at h'
          exact Or.inr (h' ▸ List.mem_cons_self _ _)
      · exact Or.inr (List.mem_cons_of_mem _ h)

lemma addCands_inv :
    ∀ (cands found : List (List Char × LegalTerm)) (seen : List (List Char)),
      (∀ p ∈ found, p.1 ∈ seen) → (found.map Prod.fst).Pairwise (· ≠ ·) →
      (∀ p ∈ (addCands cands found seen).1, p.1 ∈ (addCands cands found seen).2) ∧
      ((addCands cands found seen).1.map Prod.fst).Pairwise (· ≠ ·) := by
  intro cands
  induction cands with
  | nil => intro found seen h1 h2; exact ⟨h1, h2⟩
  | cons kr rest ih =>
    intro found seen h1 h2
    obtain ⟨k, r⟩ := kr
    by_cases hk : k ∈ seen
    · simp only [addCands, if_pos hk]
      exact ih found seen h1 h2
    · simp only [addCands, if_neg hk]
      refine ih (found ++ [(k, r)]) (seen ++ [k]) ?_ ?_
      · intro p hp
        rcases List.mem_append.mp hp with h | h
        · exact List.mem_append_left _ (h1 p h)
        · rw [List.mem_singleton] at h
          subst h
          exact List.mem_append_right _ (List.mem_singleton.mpr rfl)
      · rw [List.map_append]
        refine List.pairwise_append.mpr ⟨h2, List.pairwise_singleton _ _, ?_⟩
        intro a ha k' hk'
        simp only [List.map_cons, List.map_nil, List.mem_singleton] at hk'
        subst hk'
        rw [List.mem_map] at ha
        obtain ⟨p, hp, rfl⟩ := ha
        intro heq
        exact hk (heq ▸ h1 p hp)

lemma quotedCands_key (text : List Char) :
    ∀ p ∈ quotedCands text, p.1 = pyLower p.2.term := by
  intro p hp
  unfold quotedCands at hp
  rw [List.mem_map] at hp
  obtain ⟨g, _, rfl⟩ := hp
  rfl

lemma defnCands_key (text : List Char) :
    ∀ p ∈ defnCands text, p.1 = pyLower p.2.term := by
  intro p hp
  unfold defnCands at hp
  rw [List.mem_map] at hp
  obtain ⟨g, _, rfl⟩ := hp
  rfl

lemma lexiconCands_key (text : List Char) :
    ∀ p ∈ lexiconCands text, p.1 = pyLower p.2.term := by
  have hfact : ∀ q ∈ LEXICON, pyLower (pyTitle q.1) = q.1 := by decide
  intro p hp
  unfold lexiconCands at hp
  rw [List.mem_map] at hp
  obtain ⟨q, hq, rfl⟩ := hp
  rw [List.mem_filter] at hq
  exact (hfact q hq.1).symm

lemma entityCands_key (cap : Option (List Char → List (List Char × List Char)))
    (text : List Char) : ∀ p ∈ entityCands cap text, p.1 = pyLower p.2.term := by
  intro p hp
  unfold entityCands at hp
  cases cap with
  | none => cases hp
  | some f =>
    rw [List.mem_filterMap] at hp
    obtain ⟨e, _, heq⟩ := hp
    by_cases h1 : (e.2 == "LAW".toList || e.2 == "ORG".toList ||
        e.2 == "EVENT".toList) = true
    · rw [if_pos h1] at heq
      by_cases h2 : ((stripPy e.1).contains '"' || (stripPy e.1).contains '\'') = true
      · rw [if_pos h2] at heq; cases heq
      · rw [if_neg h2] at heq
        by_cases h3 : (pySplit (pyLower (stripPy e.1))).length ≠
            (pySplit (pyLower (stripPy e.1))).dedup.length
        · rw [if_pos h3] at heq; cases heq
        · rw [if_neg h3] at heq
          have := Option.some.inj heq
          subst this
          rfl
    · rw [if_neg h1] at heq; cases heq

/-- C4.  For every entity capability and text, the records returned by
`extract_legal_terms` have pairwise distinct case-insensitive term keys,
and (for non-degenerate input) the result equals the first-occurrence
deduplication of the stage candidates concatenated in priority order
(quoted terms, then definitional cues, then lexicon, then entities): the
earliest stage producing a key wins. -/
theorem extract_legal_terms_dedup
    (cap : Option (List Char → List (List Char × List Char))) (text : List Char) :
    (extract_legal_terms cap text).Pairwise
      (fun a b => pyLower a.term ≠ pyLower b.term) ∧
    (stripPy text ≠ [] →
      extract_legal_terms cap text =
        dedupFirst (quotedCands text ++ defnCands text ++ lexiconCands text ++
          entityCands cap text)) := by
  by_cases hcond : (text.isEmpty || (stripPy text).isEmpty) = true
  · have hnil : extract_legal_terms cap text = [] := by
      unfold extract_legal_terms
      rw [if_pos hcond]
    constructor
    · rw [hnil]; exact List.Pairwise.nil
    · intro hst
      exfalso
      rw [Bool.or_eq_true] at hcond
      rcases hcond with h | h
      · have : text = [] := by
          cases ht : text with
          | nil => rfl
          | cons a t => rw [ht] at h; cases h
        rw [this] at hst
        exact hst rfl
      · apply hst
        cases ht : stripPy text with
        | nil => rfl
        | cons a t => rw [ht] at h; cases h
  · have hchain : extract_legal_terms cap text =
        (addCands (entityCands cap text)
          (addCands (lexiconCands text)
            (addCands (defnCands text)
              (addCands (quotedCands text) [] []).1
              (addCands (quotedCands text) [] []).2).1
            (addCands (defnCands text)
              (addCands (quotedCands text) [] []).1
              (addCands (quotedCands text) [] []).2).2).1
          (addCands (lexiconCands text)
            (addCands (defnCands text)
              (addCands (quotedCands text) [] []).1
              (addCands (quotedCands text) [] []).2).1
            (addCands (defnCands text)
              (addCands (quotedCands text) [] []).1
              (addCands (quotedCands text) [] []).2).2).2).1.map Prod.snd := by
      unfold extract_legal_terms
      rw [if_neg hcond]
    constructor
    · rw [hchain]
      rw [List.pairwise_map]
      have hinv1 := addCands_inv (quotedCands text) [] []
        (fun p hp => absurd hp (List.not_mem_nil p)) List.Pairwise.nil
      have hinv2 := addCands_inv (defnCands text) _ _ hinv1.1 hinv1.2
      have hinv3 := addCands_inv (lexiconCands text) _ _ hinv2.1 hinv2.2
      have hinv4 := addCands_inv (entityCands cap text) _ _ hinv3.1 hinv3.2
      have hkeys := hinv4.2
      rw [List.pairwise_map] at hkeys
      refine hkeys.imp_of_mem ?_
      intro p q hp hq hne
      have hlink : ∀ x, x ∈ (addCands (entityCands cap text)
          (addCands (lexiconCands text)
            (addCands (defnCands text)
              (addCands (quotedCands text) [] []).1
              (addCands (quotedCands text) [] []).2).1
            (addCands (defnCands text)
              (addCands (quotedCands text) [] []).1
              (addCands (quotedCands text) [] []).2).2).1
          (addCands (lexiconCands text)
            (addCands (defnCands text)
              (addCands (quotedCands text) [] []).1
              (addCands (quotedCands text) [] []).2).1
            (addCands (defnCands text)
              (addCands (quotedCands text) [] []).1
              (addCands (quotedCands text) [] []).2).2).2).1 →
          x.1 = pyLower x.2.term := by
        intro x hx
        rcases addCands_mem _ _ _ x hx with hx1 | hx1
        · rcases addCands_mem _ _ _ x hx1 with hx2 | hx2
          · rcases addCands_mem _ _ _ x hx2 with hx3 | hx3
            · rcases addCands_mem _ _ _ x hx3 with hx4 | hx4
              · exact absurd hx4 (List.not_mem_nil x)
              · exact quotedCands_key text x hx4
            · exact defnCands_key text x hx3
          · exact lexiconCands_key text x hx2
        · exact entityCands_key cap text x hx1
      rw [← hlink p hp, ← hlink q hq]
      exact hne
    · intro _
      rw [hchain]
      unfold dedupFirst
      rw [addCands_append, addCands_append, addCands_append]

/-- Closed instance of C4's deduplication equation on a concrete document
(no entity capability), discharging the non-degeneracy hypothesis. -/
theorem extract_legal_terms_dedup_witness :
    extract_legal_terms none "The indemnity clause.".toList =
      dedupFirst (quotedCands "The indemnity clause.".toList ++
        defnCands "The indemnity clause.".toList ++
        lexiconCands "The indemnity clause.".toList ++
        entityCands none "The indemnity clause.".toList) :=
  (extract_legal_terms_dedup none "The indemnity clause.".toList).2 (by decide)

/-- C5 (counterexample).  The quoted-term scanner is not generous enough
for the claim: in `"Ab c"Effective Date"` the substring `"Effective Date"`
occurs, but the left-to-right non-overlapping scan consumes its opening
quote as the closing quote of `"Ab c"`, so the result contains no record
with term `Effective Date` at all (the only record is `Ab c`). -/
theorem quoted_effective_date_missed :
    containsSub "\"Effective Date\"".toList "\"Ab c\"Effective Date\"".toList = true ∧
    (extract_legal_terms none "\"Ab c\"Effective Date\"".toList).map LegalTerm.term =
      ["Ab c".toList] := by
  constructor
  · decide
  · decide

/-- C5 (amended).  The quoted-term stage recognizes capitalized phrases of
3 to 31 characters (an uppercase letter plus 2-30 letters/whitespace)
enclosed in straight double or single quotes only; when the quote pairing
of the scan matches the phrase (as in `The "Effective Date" is set.`) the
result contains exactly one record with term `Effective Date` and category
`Defined Term`; a 2-character quoted phrase is not matched, and curly
quotes are not recognized at all. -/
theorem quoted_defined_term_shape :
    extract_legal_terms none "The \"Effective Date\" is set.".toList =
      [⟨"Effective Date".toList, "Defined Term".toList,
        "The date when a contract or agreement officially begins".toList,
        "The date when a contract or agreement officially begins".toList⟩] ∧
    extract_legal_terms none "An \"Ab\" here.".toList = [] ∧
    extract_legal_terms none "The “Effective Date” is set.".toList = [] := by
  refine ⟨by decide, by decide, by decide⟩

/-! Rule-based clause classification (`_rule_based_classify`,
module3_clause_detection.py lines 46-79).  The source is a chain of `if`
statements; it is embedded as a first-match scan over the ordered
(label, keywords) table. -/

/-- The ordered keyword table of `_rule_based_classify`, one entry per `if`
statement, in source order. -/
def RULES : List (List Char × List (List Char)) :=
  [("Confidentiality".toList,
    ["confidential".toList, "confidentiality".toList, "non-disclosure".toList,
     "nda".toList, "proprietary information".toList]),
   ("Termination".toList,
    ["terminate".toList, "termination".toList, "expire".toList,
     "end of contract".toList, "breach".toList, "cancel".toList]),
   ("Indemnity".toList,
    ["indemnify".toList, "indemnity".toList, "hold harmless".toList,
     "defend against".toList]),
   ("Dispute Resolution".toList,
    ["arbitration".toList, "dispute".toList, "mediation".toList, "court".toList,
     "sole arbitrator".toList, "litigation".toList]),
   ("Governing Law".toList,
    ["governing law".toList, "laws in force".toList, "law of ".toList,
     "applicable law".toList]),
   ("Payment Terms".toList,
    ["payment".toList, "fee".toList, "invoice".toList, "compensation".toList,
     "price".toList, "remuneration".toList, "salary".toList]),
   ("Intellectual Property".toList,
    ["intellectual property".toList, "copyright".toList, "trademark".toList,
     "patent".toList, "ip rights".toList, "ownership".toList]),
   ("Warranties".toList,
    ["warranty".toList, "warranties".toList, "represent".toList,
     "guarantee".toList, "assurance".toList]),
   ("Limitation of Liability".toList,
    ["limitation of liability".toList, "limited to".toList,
     "aggregate liability".toList, "consequential damages".toList]),
   ("Force Majeure".toList,
    ["force majeure".toList, "act of god".toList, "natural disaster".toList,
     "unforeseen circumstances".toList]),
   ("Assignment".toList,
    ["assignment".toList, "transfer".toList, "assign rights".toList,
     "delegate".toList]),
   ("Non-Compete".toList,
    ["non-compete".toList, "non compete".toList, "competitive".toList,
     "solicitation".toList, "restrictive covenant".toList]),
   ("Severability".toList,
    ["severability".toList, "severable".toList, "invalid provision".toList,
     "unenforceable".toList]),
   ("Amendment".toList,
    ["amendment".toList, "modify".toList, "modification".toList,
     "change".toList, "variation".toList]),
   ("Notice".toList,
    ["notice".toList, "notification".toList, "inform".toList,
     "written notice".toList, "email to".toList])]

/-- First rule whose any keyword is contained in the lower-cased text wins;
no match falls through to `Other`. -/
def firstMatch (t : List Char) : List (List Char × List (List Char)) → List Char
  | [] => "Other".toList
  | r :: rest =>
    if r.2.any (fun w => containsSub w t) then r.1 else firstMatch t rest

/-- Embedding of `_rule_based_classify`. -/
def rule_based_classify (text : List Char) : List Char :=
  firstMatch (pyLower text) RULES

lemma firstMatch_of_no_match :
    ∀ (rs : List (List Char × List (List Char))) (t : List Char),
      (∀ r ∈ rs, ∀ w ∈ r.2, containsSub w t = false) →
      firstMatch t rs = "Other".toList := by
  intro rs
  induction rs with
  | nil => intro t _; rfl
  | cons r rest ih =>
    intro t h
    have hr : (r.2.any (fun w => containsSub w t)) = false := by
      rw [List.any_eq_false]
      intro w hw
      rw [h r (List.mem_cons_self _ _) w hw]
      exact Bool.false_ne_true
    unfold firstMatch
    rw [if_neg (by rw [hr]; exact Bool.false_ne_true)]
    exact ih t (fun q hq => h q (List.mem_cons_of_mem _ hq))

lemma firstMatch_append :
    ∀ (rs₁ : List (List Char × List (List Char))) (r : List Char × List (List Char))
      (rs₂ : List (List Char × List (List Char))) (t : List Char),
      (∀ q ∈ rs₁, ∀ w ∈ q.2, containsSub w t = false) →
      (∃ w ∈ r.2, containsSub w t = true) →
      firstMatch t (rs₁ ++ r :: rs₂) = r.1 := by
  intro rs₁
  induction rs₁ with
  | nil =>
    intro r rs₂ t _ hr
    have : (r.2.any (fun w => containsSub w t)) = true := by
      rw [List.any_eq_true]
      obtain ⟨w, hw, hc⟩ := hr
      exact ⟨w, hw, hc⟩
    unfold firstMatch
    rw [List.nil_append] at *
    simp only []
    rw [if_pos this]
  | cons q rest ih =>
    intro r rs₂ t hskip hr
    have hq : (q.2.any (fun w => containsSub w t)) = false := by
      rw [List.any_eq_false]
      intro w hw
      rw [hskip q (List.mem_cons_self _ _) w hw]
      exact Bool.false_ne_true
    rw [List.cons_append]
    unfold firstMatch
    rw [if_neg (by rw [hq]; exact Bool.false_ne_true)]
    exact ih r rs₂ t (fun p hp => hskip p (List.mem_cons_of_mem _ hp)) hr

/-- C6.  The rule-based classifier is a pure function of the lower-cased
input over the ordered table `RULES`, first matching label wins: any text
containing `indemnify` and no keyword of the earlier Confidentiality or
Termination entries classifies as `Indemnity`, and any text containing no
taxonomy keyword at all classifies as `Other`. -/
theorem rule_based_classify_spec :
    (∀ t₁ t₂ : List Char, pyLower t₁ = pyLower t₂ →
      rule_based_classify t₁ = rule_based_classify t₂) ∧
    (∀ text : List Char, containsSub "indemnify".toList (pyLower text) = true →
      (∀ r ∈ RULES.take 2, ∀ w ∈ r.2, containsSub w (pyLower text) = false) →
      rule_based_classify text = "Indemnity".toList) ∧
    (∀ text : List Char,
      (∀ r ∈ RULES, ∀ w ∈ r.2, containsSub w (pyLower text) = false) →
      rule_based_classify text = "Other".toList) := by
  refine ⟨?_, ?_, ?_⟩
  · intro t₁ t₂ h
    unfold rule_based_classify
    rw [h]
  · intro text hin hskip
    have hsplit : RULES = RULES.take 2 ++
        ("Indemnity".toList,
          ["indemnify".toList, "indemnity".toList, "hold harmless".toList,
           "defend against".toList]) :: RULES.drop 3 := by rfl
    unfold rule_based_classify
    rw [hsplit]
    exact firstMatch_append _ _ _ _ hskip
      ⟨"indemnify".toList, by simp, hin⟩
  · intro text h
    exact firstMatch_of_no_match RULES (pyLower text) h

/-- Closed instances of C6 discharging its hypotheses: an indemnity-only
text classifies as `Indemnity`, and a keyword-free text as `Other`. -/
theorem rule_based_classify_spec_witness :
    rule_based_classify "The Contractor shall indemnify the Employer".toList =
      "Indemnity".toList ∧
    rule_based_classify "xyz qqq".toList = "Other".toList :=
  ⟨rule_based_classify_spec.2.1 "The Contractor shall indemnify the Employer".toList
     (by decide) (by decide),
   rule_based_classify_spec.2.2 "xyz qqq".toList (by decide)⟩

/-! Language simplification (`simplify_text`,
module5_language_simplification.py lines 53-179).  The paraphrasing model
call is a capability parameter receiving the same arguments the source
passes (`sentence, max_length, min_length, temperature, top_p`); `none`
stands for a missing `summary_text` or a per-sentence exception.  Sentence
tokenization (NLTK) is likewise a function parameter. -/

/-- Optional paraphrasing capability. -/
def Paraphraser : Type :=
  List Char → Nat → Nat → ℚ → ℚ → Option (List Char)

/-- Python `int()` truncation toward zero on an exact rational. -/
def intTrunc (q : ℚ) : ℤ := if q < 0 then -((-q).floor) else q.floor

/-- Python `str.capitalize()`: first character uppercased, the rest
lowercased. -/
def capitalizePy : List Char → List Char
  | [] => []
  | c :: cs => c.toUpper :: cs.map Char.toLower

/-- Level-dependent sampling temperature (`if level == "basic" ... else`,
lines 81-92): anything that is not exactly `basic` or `intermediate` falls
into the `else` (advanced) arm. -/
def levelTemp (level : List Char) : ℚ :=
  if level = "basic".toList then 1/2
  else if level = "intermediate".toList then 7/10 else 1

/-- Level-dependent target length ratio. -/
def levelRatio (level : List Char) : ℚ :=
  if level = "basic".toList then 17/20
  else if level = "intermediate".toList then 7/10 else 11/20

/-- Level-dependent word budget (`max_sentence_length`). -/
def levelMaxLen (level : List Char) : Nat :=
  if level = "basic".toList then 30
  else if level = "intermediate".toList then 25 else 20

/-- The replacement table of `_aggressive_simplification`. -/
def REPLACEMENTS_ADV : List (List Char × List Char) :=
  [("aforementioned".toList, "mentioned".toList),
   ("herein".toList, "here".toList),
   ("thereof".toList, "of it".toList),
   ("whereby".toList, "by which".toList),
   ("hereunder".toList, "under this".toList),
   ("thereto".toList, "to it".toList),
   ("pursuant to".toList, "according to".toList),
   ("notwithstanding".toList, "despite".toList)]

/-- The replacement table of `_moderate_simplification`. -/
def REPLACEMENTS_MOD : List (List Char × List Char) :=
  [("aforementioned".toList, "mentioned".toList),
   ("herein".toList, "here".toList),
   ("pursuant to".toList, "according to".toList)]

/-- Apply each (old, new) replacement, then its capitalized variant, in
table order. -/
def applyRepl (rs : List (List Char × List Char)) (t : List Char) : List Char :=
  rs.foldl (fun acc p =>
    replaceStr (capitalizePy p.1) (capitalizePy p.2) (replaceStr p.1 p.2 acc)) t

/-- Join with single spaces (`' '.join`). -/
def joinSpace (ls : List (List Char)) : List Char := List.intercalate [' '] ls

/-- Embedding of `_aggressive_simplification`: truncate to the word budget
(appending a period when the truncation ends on an alphanumeric character),
then apply the replacement table. -/
def aggressive_simplification (t : List Char) (maxLen : Nat) : List Char :=
  let words := pySplit t
  let t2 :=
    if maxLen < words.length then
      let tj := joinSpace (words.take maxLen)
      match tj.getLast? with
      | some c => if c.isAlphanum then tj ++ ['.'] else tj
      | none => tj
    else t
  applyRepl REPLACEMENTS_ADV t2

/-- Embedding of `_moderate_simplification` (its `max_length` parameter is
unused, as in the source). -/
def moderate_simplification (t : List Char) (_maxLen : Nat) : List Char :=
  applyRepl REPLACEMENTS_MOD t

/-- Per-sentence processing of `simplify_text` (lines 95-130). -/
def simpSentence (f : Paraphraser) (level : List Char) (sent : List Char) :
    List Char :=
  if (stripPy sent).length < 20 then sent
  else
    let sentWords := (pySplit sent).length
    let dml := (max 15 (min (intTrunc ((sentWords : ℚ) * levelRatio level)) 50)).toNat
    match f sent dml 10 (levelTemp level) (19/20) with
    | none => sent
    | some out =>
      let ai := stripPy out
      let ai2 :=
        if level = "advanced".toList then
          aggressive_simplification ai (levelMaxLen level)
        else if level = "intermediate".toList then
          moderate_simplification ai (levelMaxLen level)
        else ai
      if 5 < ai2.length ∧ 2 * ai2.length ≤ 3 * sent.length then ai2 else sent

/-- Embedding of `simplify_text`, parameterized by the sentence tokenizer
and the optional paraphrasing capability. -/
def simplify_text (splitSent : List Char → List (List Char))
    (cap : Option Paraphraser) (text level : List Char) : List Char :=
  if text.isEmpty || (stripPy text).isEmpty then text
  else
    match cap with
    | none => text
    | some f =>
      if 10 < (pySplit text).length then
        joinSpace ((splitSent text).map (simpSentence f level))
      else text

/-- C7.  Without a paraphrasing capability `simplify_text` is the identity
for every input and level; and with any capability, a text of fewer than
10 words is returned unchanged. -/
theorem simplify_text_identity :
    (∀ (splitSent : List Char → List (List Char)) (text level : List Char),
      simplify_text splitSent none text level = text) ∧
    (∀ (splitSent : List Char → List (List Char)) (f : Paraphraser)
      (text level : List Char), (pySplit text).length < 10 →
      simplify_text splitSent (some f) text level = text) := by
  constructor
  · intro splitSent text level
    unfold simplify_text
    by_cases h : (text.isEmpty || (stripPy text).isEmpty) = true
    · rw [if_pos h]
    · rw [if_neg h]
  · intro splitSent f text level hcount
    unfold simplify_text
    by_cases h : (text.isEmpty || (stripPy text).isEmpty) = true
    · rw [if_pos h]
    · rw [if_neg h]
      have hlt : ¬(10 < (pySplit text).length) := by omega
      show (if 10 < (pySplit text).length then
        joinSpace ((splitSent text).map (simpSentence f level)) else text) = text
      rw [if_neg hlt]

/-- Closed instances of C7 discharging its hypotheses. -/
theorem simplify_text_identity_witness :
    simplify_text (fun t => [t]) none "Hello legal world".toList "basic".toList =
      "Hello legal world".toList ∧
    simplify_text (fun t => [t]) (some (fun s _ _ _ _ => some s))
      "short text".toList "advanced".toList = "short text".toList :=
  ⟨simplify_text_identity.1 (fun t => [t]) "Hello legal world".toList "basic".toList,
   simplify_text_identity.2 (fun t => [t]) (fun s _ _ _ _ => some s)
     "short text".toList "advanced".toList (by decide)⟩

/-- Modelled from the spec side of the amended C10 for comparison: the same
pipeline with the advanced sampling parameters but no post-processing
pass. -/
def simpSentenceNoPost (f : Paraphraser) (sent : List Char) : List Char :=
  if (stripPy sent).length < 20 then sent
  else
    let sentWords := (pySplit sent).length
    let dml := (max 15 (min (intTrunc ((sentWords : ℚ) * (11/20))) 50)).toNat
    match f sent dml 10 1 (19/20) with
    | none => sent
    | some out =>
      let ai := stripPy out
      if 5 < ai.length ∧ 2 * ai.length ≤ 3 * sent.length then ai else sent

/-- Comparison pipeline for the amended C10: advanced sampling parameters,
no post-processing. -/
def simplify_unknown_level (splitSent : List Char → List (List Char))
    (cap : Option Paraphraser) (text : List Char) : List Char :=
  if text.isEmpty || (stripPy text).isEmpty then text
  else
    match cap with
    | none => text
    | some f =>
      if 10 < (pySplit text).length then
        joinSpace ((splitSent text).map (simpSentenceNoPost f))
      else text

/-- C10 (counterexample).  A level outside the enum (here `expert`) is NOT
treated as `advanced`: the paraphraser output is accepted without the
20-word truncation, so the result differs from the `advanced` result and
has 25 words. -/
theorem unknown_level_skips_truncation :
    simplify_text (fun t => [t])
      (some (fun _ _ _ _ _ => some "a b c d e f g h i j k l m n o p q r s t u v w x y".toList))
      "the quick brown fox jumps over the lazy dog near the river bank today".toList
      "expert".toList ≠
    simplify_text (fun t => [t])
      (some (fun _ _ _ _ _ => some "a b c d e f g h i j k l m n o p q r s t u v w x y".toList))
      "the quick brown fox jumps over the lazy dog near the river bank today".toList
      "advanced".toList ∧
    (pySplit (simplify_text (fun t => [t])
      (some (fun _ _ _ _ _ => some "a b c d e f g h i j k l m n o p q r s t u v w x y".toList))
      "the quick brown fox jumps over the lazy dog near the river bank today".toList
      "expert".toList)).length = 25 := by
  constructor
  · decide
  · decide

/-- C10 (amended).  Every level other than `basic` and `intermediate` gets
the advanced sampling parameters (temperature 1, length ratio 0.55,
`max_sentence_length` 20); but a level that is also not exactly `advanced`
skips the post-processing pass entirely (no truncation, no replacements),
behaving like the pipeline with advanced parameters and no
post-processing. -/
theorem unknown_level_params (level : List Char)
    (h1 : level ≠ "basic".toList) (h2 : level ≠ "intermediate".toList) :
    (levelTemp level = 1 ∧ levelRatio level = 11/20 ∧ levelMaxLen level = 20) ∧
    (level ≠ "advanced".toList →
      ∀ (splitSent : List Char → List (List Char)) (cap : Option Paraphraser)
        (text : List Char),
        simplify_text splitSent cap text level =
          simplify_unknown_level splitSent cap text) := by
  have hT : levelTemp level = 1 := by unfold levelTemp; rw [if_neg h1, if_neg h2]
  have hR : levelRatio level = 11/20 := by unfold levelRatio; rw [if_neg h1, if_neg h2]
  have hM : levelMaxLen level = 20 := by unfold levelMaxLen; rw [if_neg h1, if_neg h2]
  refine ⟨⟨hT, hR, hM⟩, ?_⟩
  intro h3 splitSent cap text
  have hfun : ∀ (f : Paraphraser) (s : List Char),
      simpSentence f level s = simpSentenceNoPost f s := by
    intro f s
    unfold simpSentence simpSentenceNoPost
    rw [hT, hR]
    by_cases hlen : (stripPy s).length < 20
    · rw [if_pos hlen, if_pos hlen]
    · rw [if_neg hlen, if_neg hlen]
      dsimp only
      cases f s ((max 15 (min (intTrunc (((pySplit s).length : ℚ) * (11/20))) 50)).toNat)
          10 1 (19/20) with
      | none => rfl
      | some out =>
        dsimp only
        simp only [if_neg h3, if_neg h2]
  unfold simplify_text simplify_unknown_level
  by_cases hc : (text.isEmpty || (stripPy text).isEmpty) = true
  · rw [if_pos hc, if_pos hc]
  · rw [if_neg hc, if_neg hc]
    cases cap with
    | none => rfl
    | some f =>
      show (if 10 < (pySplit text).length then
          joinSpace ((splitSent text).map (simpSentence f level)) else text) =
        (if 10 < (pySplit text).length then
          joinSpace ((splitSent text).map (simpSentenceNoPost f)) else text)
      by_cases hw : 10 < (pySplit text).length
      · rw [if_pos hw, if_pos hw]
        congr 1
        exact List.map_congr_left (fun s _ => hfun f s)
      · rw [if_neg hw, if_neg hw]

/-- Closed instance of the amended C10 at the concrete level `expert`,
discharging its hypotheses. -/
theorem unknown_level_params_witness :
    (levelTemp "expert".toList = 1 ∧ levelRatio "expert".toList = 11/20 ∧
      levelMaxLen "expert".toList = 20) ∧
    simplify_text (fun t => [t]) (some (fun s _ _ _ _ => some s))
        "alpha beta gamma delta epsilon zeta eta theta iota kappa lambda mu".toList
        "expert".toList =
      simplify_unknown_level (fun t => [t]) (some (fun s _ _ _ _ => some s))
        "alpha beta gamma delta epsilon zeta eta theta iota kappa lambda mu".toList :=
  ⟨(unknown_level_params "expert".toList (by decide) (by decide)).1,
   (unknown_level_params "expert".toList (by decide) (by decide)).2 (by decide)
     (fun t => [t]) (some (fun s _ _ _ _ => some s))
     "alpha beta gamma delta epsilon zeta eta theta iota kappa lambda mu".toList⟩

/-! Readability metrics (`count_syllables`, readability_metrics.py lines
12-31, and `calculate_reading_ease`, main.py lines 153-170).  Python floats
are modelled as exact rationals; `round(x, 2)` as round-half-to-even at two
decimals.  The NLTK tokenizers are function parameters. -/

/-- Vowels of the syllable estimator (`"aeiouy"`). -/
def isVowel (c : Char) : Bool :=
  c == 'a' || c == 'e' || c == 'i' || c == 'o' || c == 'u' || c == 'y'

/-- Count the transitions into a vowel group, scanning left to right; the
flag records whether the previous character was a vowel. -/
def vowelGroupsAux : Bool → List Char → Nat
  | _, [] => 0
  | prev, c :: cs =>
    if isVowel c && !prev then 1 + vowelGroupsAux (isVowel c) cs
    else vowelGroupsAux (isVowel c) cs

/-- Embedding of `count_syllables`: lower-case, return 1 for words of at
most one character, strip one trailing `e`, count vowel groups, minimum
1. -/
def count_syllables (word : List Char) : Nat :=
  let w := pyLower word
  if w.length ≤ 1 then 1
  else
    let w2 := if w.getLast? == some 'e' then w.dropLast else w
    max 1 (vowelGroupsAux false w2)

/-- Python `str.isalpha()` on a token (ASCII letters; all tokens reasoned
about here are ASCII). -/
def pyIsAlphaStr (w : List Char) : Bool := !w.isEmpty && w.all Char.isAlpha

/-- Python `round(x, 2)`: round half to even at two decimals, on exact
rationals. -/
def roundHalfEven2 (q : ℚ) : ℚ :=
  let n := q * 100
  let f := n.floor
  let r := n - f
  let k : ℤ :=
    if r < 1/2 then f
    else if 1/2 < r then f + 1
    else if f % 2 = 0 then f else f + 1
  (k : ℚ) / 100

/-- Embedding of `calculate_reading_ease` (main.py lines 153-170),
parameterized by the sentence and word tokenizers. -/
def calculate_reading_ease (sentTok wordTok : List Char → List (List Char))
    (text : List Char) : ℚ :=
  if text.isEmpty || (stripPy text).isEmpty then 0
  else
    let sentences := sentTok text
    let words := (wordTok text).filter pyIsAlphaStr
    if sentences.length = 0 ∨ words.length = 0 then 0
    else
      let syllable_count : ℚ := ((words.map count_syllables).sum : ℕ)
      let words_per_sentence : ℚ := (words.length : ℚ) / (max sentences.length 1 : ℕ)
      let syllables_per_word : ℚ := syllable_count / (max words.length 1 : ℕ)
      let score : ℚ :=
        206835/1000 - (1015/1000 * words_per_sentence) - (846/10 * syllables_per_word)
      roundHalfEven2 (max (min score 100) 0)

/-- C8.  `calculate_reading_ease` is total: it returns exactly 0 for empty
or whitespace-only input and whenever tokenization yields no sentence or no
alphabetic word (the division-guard arm of the source); for every other
input it returns `206.835 − 1.015·(words/sentences) − 84.6·(syllables/words)`
clamped to [0, 100] and rounded to two decimals, with syllables estimated
by `count_syllables`. -/
theorem calculate_reading_ease_spec
    (sentTok wordTok : List Char → List (List Char)) (text : List Char) :
    (stripPy text = [] → calculate_reading_ease sentTok wordTok text = 0) ∧
    ((sentTok text = [] ∨ (wordTok text).filter pyIsAlphaStr = []) →
      stripPy text ≠ [] → calculate_reading_ease sentTok wordTok text = 0) ∧
    (stripPy text ≠ [] → sentTok text ≠ [] →
      (wordTok text).filter pyIsAlphaStr ≠ [] →
      calculate_reading_ease sentTok wordTok text =
        roundHalfEven2 (max (min (206835/1000 -
          1015/1000 * ((((wordTok text).filter pyIsAlphaStr).length : ℚ) /
            (((sentTok text).length : ℕ) : ℚ)) -
          846/10 * ((((((wordTok text).filter pyIsAlphaStr).map count_syllables).sum : ℕ) : ℚ) /
            ((((wordTok text).filter pyIsAlphaStr).length : ℕ) : ℚ))) 100) 0)) := by
  have hNE : stripPy text ≠ [] →
      (text.isEmpty || (stripPy text).isEmpty) = false := by
    intro h0
    have htextne : text ≠ [] := by
      intro h
      apply h0
      rw [h]
      rfl
    have e1 : text.isEmpty = false := by
      cases htext : text with
      | nil => exact absurd htext htextne
      | cons a t => rfl
    have e2 : (stripPy text).isEmpty = false := by
      cases hstrip : stripPy text with
      | nil => exact absurd hstrip h0
      | cons a t => rfl
    rw [e1, e2]
    rfl
  refine ⟨?_, ?_, ?_⟩
  · intro h
    have hcond : (text.isEmpty || (stripPy text).isEmpty) = true := by
      rw [h]
      simp
    unfold calculate_reading_ease
    rw [if_pos hcond]
  · intro h h0
    unfold calculate_reading_ease
    rw [if_neg (by rw [hNE h0]; exact Bool.false_ne_true)]
    have hcond : (sentTok text).length = 0 ∨
        ((wordTok text).filter pyIsAlphaStr).length = 0 := by
      rcases h with h | h
      · exact Or.inl (by rw [h]; rfl)
      · exact Or.inr (by rw [h]; rfl)
    dsimp only
    rw [if_pos hcond]
  · intro h0 h1 h2
    unfold calculate_reading_ease
    rw [if_neg (by rw [hNE h0]; exact Bool.false_ne_true)]
    dsimp only
    have hs0 : (sentTok text).length ≠ 0 := by
      intro h
      exact h1 (List.length_eq_zero.mp h)
    have hw0 : ((wordTok text).filter pyIsAlphaStr).length ≠ 0 := by
      intro h
      exact h2 (List.length_eq_zero.mp h)
    rw [if_neg (by push_neg; exact ⟨hs0, hw0⟩)]
    have hmax1 : max (sentTok text).length 1 = (sentTok text).length :=
      Nat.max_eq_left (by omega)
    have hmax2 : max ((wordTok text).filter pyIsAlphaStr).length 1 =
        ((wordTok text).filter pyIsAlphaStr).length :=
      Nat.max_eq_left (by omega)
    rw [hmax1, hmax2]

/-- Closed instances of C8 discharging its hypotheses: the empty string
scores 0, and a concrete two-word text evaluates to the rounded clamped
formula value 77.90. -/
theorem calculate_reading_ease_spec_witness :
    calculate_reading_ease (fun t => [t]) pySplit "".toList = 0 ∧
    calculate_reading_ease (fun t => [t]) pySplit "Hello world".toList = 779/10 := by
  constructor
  · exact (calculate_reading_ease_spec (fun t => [t]) pySplit "".toList).1 (by decide)
  · have h := (calculate_reading_ease_spec (fun t => [t]) pySplit
      "Hello world".toList).2.2 (by decide) (by decide) (by decide)
    rw [h]
    have e1 : ((pySplit "Hello world".toList).filter pyIsAlphaStr).length = 2 := by
      decide
    have e2 : (((pySplit "Hello world".toList).filter pyIsAlphaStr).map
        count_syllables).sum = 3 := by decide
    rw [e1, e2]
    norm_num
    unfold roundHalfEven2
    have hn : ((15581:ℚ)/200) * 100 = 15581/2 := by norm_num
    rw [hn]
    have hf : ((15581:ℚ)/2).floor = 7790 := by
      have h1 : (7790:ℤ) ≤ Rat.floor ((15581:ℚ)/2) := Rat.le_floor.mpr (by norm_num)
      have h2 : ¬((7791:ℤ) ≤ Rat.floor ((15581:ℚ)/2)) := by
        rw [Rat.le_floor]
        norm_num
      omega
    simp only [hf]
    norm_num

end ClauseEase
